import Mathlib

/-
Verification of `stream-cancel`'s `wrapper.rs` (`Valve` / `Valved`) against its
specification.

The wrapper composes a caller-supplied pull-based stream with a shared one-shot
broadcast signal (`Tripwire`), terminating the stream on the poll after the
signal fires.  `Valve`, `Valved`, `Valve::new`, `Valve::wrap`, `Valved::new`
and `Valved::poll_next` are translated from `src/wrapper.rs`.  The broadcast
primitive (`Tripwire`, `Trigger::close`) and the `take_until` combinator live
outside the provided sources, so they are modelled from the specification
(sections 4.1 and 4.3); each such definition is marked in its doc comment.

Shared mutable signal state is made explicit: a `World` maps signal identities
to their `Armed`/`Fired` state, and every handle (`Trigger`, `Tripwire`)
carries the identity of the signal it references.  Cloning a handle copies the
identity, so all clones observe the same cell, exactly as reference-counted
sharing behaves in the source.
-/

namespace StreamCancel

/-- The result of one poll of a stream, mirroring Rust's
`Poll<Option<Item>>`: an item, end-of-data, or not ready yet. -/
inductive Poll (α : Type) where
  | ready : Option α → Poll α
  | pending : Poll α
  deriving DecidableEq, Repr

/-- The state of one shared broadcast signal cell (spec section 3):
`Armed` until the trigger fires it, then `Fired` forever. -/
inductive SignalState where
  | Armed
  | Fired
  deriving DecidableEq, Repr

/-- The shared mutable state of the system: one cell per signal lineage,
indexed by the order of creation. -/
abbrev World := List SignalState

/-- Modelled from the spec: a `Tripwire` is a clonable handle referencing one
shared signal cell; all clones reference the same cell, so the handle is just
the cell's identity. -/
structure Tripwire where
  id : Nat
  deriving DecidableEq, Repr

/-- Modelled from the spec: the unique, single-use capability to fire one
signal cell. -/
structure Trigger where
  id : Nat
  deriving DecidableEq, Repr

/-- Modelled from the spec: `Tripwire::clone` returns a new handle referencing
the same shared state — no semantic copy of the fired/unfired state. -/
def Tripwire.clone (tw : Tripwire) : Tripwire :=
  tw

/-- Modelled from the spec: `Tripwire::new` allocates fresh shared state in
`Armed` and returns the unique firing capability plus one signal handle. -/
def Tripwire.new (w : World) : Trigger × Tripwire × World :=
  (⟨w.length⟩, ⟨w.length⟩, w ++ [SignalState.Armed])

/-- Modelled from the spec: polling a signal handle reports complete exactly
when the shared cell it references is `Fired`; pending while `Armed`. -/
def Tripwire.fired (tw : Tripwire) (w : World) : Bool :=
  match w[tw.id]? with
  | some SignalState.Fired => true
  | _ => false

/-- Modelled from the spec: `Trigger::close` consumes the trigger and
transitions its signal cell to `Fired`; it touches no other cell. -/
def Trigger.close (t : Trigger) (w : World) : World :=
  w.set t.id SignalState.Fired

/-- A conforming wrapped stream (spec section 6): a pull-based producer over
some private state `σ`, answering each poll with an item, end-of-data, or
pending, together with its successor state. -/
structure StreamDef (σ α : Type) where
  poll : σ → Poll α × σ

/-- The per-instance state machine of the guard (spec section 4.3):
`Running` initially, `Terminal` absorbing. -/
inductive GuardState where
  | Running
  | Terminal
  deriving DecidableEq, Repr

/-- The `TakeUntil` combinator's state: the wrapped stream's state, the clone
of the signal used as termination watch, and the guard state. -/
structure TakeUntil (σ : Type) where
  stream : σ
  signal : Tripwire
  state : GuardState
  deriving DecidableEq, Repr

/-- Modelled from the spec: `stream.take_until(tw)` builds the combinator in
its initial `Running` state around the given stream and signal handle. -/
def takeUntil (s : σ) (tw : Tripwire) : TakeUntil σ :=
  ⟨s, tw, GuardState.Running⟩

/-- Modelled from the spec (section 4.3 poll policy): if already terminal,
yield end-of-data; otherwise check the signal first — if fired, become
terminal and yield end-of-data without touching the wrapped stream; otherwise
delegate the poll to the wrapped stream, becoming terminal if it reports its
own natural end-of-data. -/
def TakeUntil.pollNext (sd : StreamDef σ α) (tu : TakeUntil σ) (w : World) :
    Poll α × TakeUntil σ :=
  match tu.state with
  | GuardState.Terminal => (Poll.ready none, tu)
  | GuardState.Running =>
      if tu.signal.fired w then
        (Poll.ready none, { tu with state := GuardState.Terminal })
      else
        match sd.poll tu.stream with
        | (Poll.ready none, s1) =>
            (Poll.ready none, { tu with stream := s1, state := GuardState.Terminal })
        | (r, s1) => (r, { tu with stream := s1 })

/-- `Valve` (src/wrapper.rs line 10): a clonable handle wrapping one
`Tripwire`. -/
structure Valve where
  tripwire : Tripwire
  deriving DecidableEq, Repr

/-- `#[derive(Clone)]` on `Valve`: clones the inner `Tripwire` handle, so the
clone references the same signal cell. -/
def Valve.clone (v : Valve) : Valve :=
  ⟨v.tripwire.clone⟩

/-- `Valve::new` (src/wrapper.rs lines 14-17): mint a fresh
`(Trigger, Valve)` pair over one new signal cell. -/
def Valve.new (w : World) : Trigger × Valve × World :=
  match Tripwire.new w with
  | (t, tw, w1) => (t, ⟨tw⟩, w1)

/-- `Valved` (src/wrapper.rs line 36): a wrapper holding the `TakeUntil`
combination of the wrapped stream and a clone of the valve's signal. -/
structure Valved (σ : Type) where
  inner : TakeUntil σ
  deriving DecidableEq, Repr

/-- `Valve::wrap` (src/wrapper.rs lines 23-28):
`Valved(stream.take_until(self.0.clone()))`. -/
def Valve.wrap (v : Valve) (s : σ) : Valved σ :=
  ⟨takeUntil s v.tripwire.clone⟩

/-- `Valved::new` (src/wrapper.rs lines 42-48): `Valve::new` followed by
`wrap`. -/
def Valved.new (s : σ) (w : World) : Trigger × Valved σ × World :=
  match Valve.new w with
  | (vh, v, w1) => (vh, v.wrap s, w1)

/-- `Valved::poll_next` (src/wrapper.rs lines 57-61): delegate the poll to the
inner combinator and return its result unchanged. -/
def Valved.pollNext (sd : StreamDef σ α) (v : Valved σ) (w : World) :
    Poll α × Valved σ :=
  match TakeUntil.pollNext sd v.inner w with
  | (r, tu) => (r, ⟨tu⟩)

/-- Poll a guard `n` times in a fixed world, collecting the results. -/
def pollTrace (sd : StreamDef σ α) : TakeUntil σ → World → Nat → List (Poll α)
  | _, _, 0 => []
  | tu, w, Nat.succ n =>
      match TakeUntil.pollNext sd tu w with
      | (r, tu1) => r :: pollTrace sd tu1 w n

/-- Poll a guard once per world in the given list (the world may change
between polls, e.g. when the trigger fires mid-trace). -/
def pollTraceW (sd : StreamDef σ α) : TakeUntil σ → List World → List (Poll α)
  | _, [] => []
  | tu, w :: ws =>
      match TakeUntil.pollNext sd tu w with
      | (r, tu1) => r :: pollTraceW sd tu1 ws

/-- The guard state after `n` polls in a fixed world. -/
def runPolls (sd : StreamDef σ α) : TakeUntil σ → World → Nat → TakeUntil σ
  | tu, _, 0 => tu
  | tu, w, Nat.succ n => runPolls sd (TakeUntil.pollNext sd tu w).2 w n

/-- Poll the raw, unwrapped stream `n` times, collecting the results. -/
def rawTrace (sd : StreamDef σ α) : σ → Nat → List (Poll α)
  | _, 0 => []
  | s, Nat.succ n =>
      match sd.poll s with
      | (r, s1) => r :: rawTrace sd s1 n

/-- Whether a poll result carries an item. -/
def isItem : Poll α → Bool
  | Poll.ready (some _) => true
  | _ => false

/-- How many polls of a trace yielded an item. -/
def countItems (tr : List (Poll α)) : Nat :=
  (tr.filter isItem).length

/-- The operations that can touch the shared world after a fire: minting a new
signal lineage, or firing some cell. -/
inductive Op where
  | newSignal
  | fire : Nat → Op

/-- Apply one world operation. -/
def applyOp (w : World) : Op → World
  | Op.newSignal => w ++ [SignalState.Armed]
  | Op.fire i => w.set i SignalState.Fired

/-- Apply a sequence of world operations. -/
def applyOps (w : World) (ops : List Op) : World :=
  ops.foldl applyOp w

/-- A finite stream backed by a list: yields its elements in order, then
end-of-data forever. -/
def listPoll : List α → Poll α × List α
  | [] => (Poll.ready none, [])
  | x :: xs => (Poll.ready (some x), xs)

/-- The `StreamDef` of a list-backed stream. -/
def listStream (α : Type) : StreamDef (List α) α :=
  ⟨listPoll⟩

/-- The spec's concrete scenario (section 8, property 7): wrap `[1,2,3]`,
poll once, fire, poll again; record the two poll results. -/
def scenarioOnePollThenFire : Poll Nat × Poll Nat :=
  match Valve.new [] with
  | (t, v, w0) =>
      match Valved.pollNext (listStream Nat) (v.wrap [1, 2, 3]) w0 with
      | (r1, vd1) =>
          match Valved.pollNext (listStream Nat) vd1 (t.close w0) with
          | (r2, _) => (r1, r2)

/-- The unit test `valved_stream_may_be_dropped_safely` (src/wrapper.rs lines
69-76): make a valve, wrap an empty stream, drop the wrapper and the valve,
keep only the trigger, then close it. -/
def scenarioCloseAfterDrop : World :=
  match Valve.new [] with
  | (t, v, w0) =>
      let _wrapped := v.wrap ([] : List Unit)
      t.close w0

/-- Modelled from the spec: `Tripwire` is clonable unconditionally (section
4.1, `Signal::clone` is always available). -/
def tripwireIsClone : Bool := true

/-- Modelled from the spec (section 4.3): the combinator type is clonable
exactly when both the wrapped stream type and the watched signal handle type
are clonable. -/
def takeUntilIsClone (sClone fClone : Bool) : Bool := sClone && fClone

/-- `#[derive(Clone)]` on `Valved<S>` (src/wrapper.rs line 35): the derived
instance exists exactly when the single field `TakeUntil<S, Tripwire>` is
clonable, which needs `S` clonable (the `Tripwire` side always is). -/
def valvedIsClone (sClone : Bool) : Bool := takeUntilIsClone sClone tripwireIsClone

/-- A terminal guard answers every poll with end-of-data and never changes. -/
theorem pollNext_terminal (sd : StreamDef σ α) (tu : TakeUntil σ) (w : World)
    (h : tu.state = GuardState.Terminal) :
    TakeUntil.pollNext sd tu w = (Poll.ready none, tu) := by
  unfold TakeUntil.pollNext
  rw [h]

/-- Once the signal has fired, a poll yields end-of-data and moves the guard
to `Terminal` without touching the wrapped stream, whatever state it was in. -/
theorem pollNext_of_fired (sd : StreamDef σ α) (tu : TakeUntil σ) (w : World)
    (h : tu.signal.fired w = true) :
    TakeUntil.pollNext sd tu w =
      (Poll.ready none, { tu with state := GuardState.Terminal }) := by
  obtain ⟨s, tw, st⟩ := tu
  cases st
  · simp [TakeUntil.pollNext, Tripwire.fired] at h ⊢
    simp [h]
  · rfl

/-- While the signal is armed and the guard running, a poll is a verbatim
delegation to the wrapped stream: same result, successor stream state adopted,
signal kept, and the guard stays `Running` unless the stream reported its own
end-of-data. -/
theorem pollNext_of_armed (sd : StreamDef σ α) (s : σ) (tw : Tripwire) (w : World)
    (h : tw.fired w = false) :
    (TakeUntil.pollNext sd ⟨s, tw, GuardState.Running⟩ w).1 = (sd.poll s).1 ∧
    (TakeUntil.pollNext sd ⟨s, tw, GuardState.Running⟩ w).2.stream = (sd.poll s).2 ∧
    (TakeUntil.pollNext sd ⟨s, tw, GuardState.Running⟩ w).2.signal = tw ∧
    ((sd.poll s).1 ≠ Poll.ready none →
      (TakeUntil.pollNext sd ⟨s, tw, GuardState.Running⟩ w).2.state = GuardState.Running) := by
  simp only [TakeUntil.pollNext, h, Bool.false_eq_true, if_false]
  rcases hp : sd.poll s with ⟨r, s1⟩
  match r with
  | Poll.ready none => simp
  | Poll.ready (some x) => simp
  | Poll.pending => simp

/-- Polling never changes which signal the guard watches. -/
theorem pollNext_signal_eq (sd : StreamDef σ α) (tu : TakeUntil σ) (w : World) :
    (TakeUntil.pollNext sd tu w).2.signal = tu.signal := by
  obtain ⟨s, tw, st⟩ := tu
  cases st
  · by_cases h : tw.fired w
    · rw [pollNext_of_fired sd ⟨s, tw, GuardState.Running⟩ w h]
    · exact (pollNext_of_armed sd s tw w (by simpa using h)).2.2.1
  · rw [pollNext_terminal sd ⟨s, tw, GuardState.Terminal⟩ w rfl]

/-- In a world where the guard's signal has fired, every poll of every trace
yields end-of-data. -/
theorem pollTrace_of_fired (sd : StreamDef σ α) (tu : TakeUntil σ) (w : World)
    (h : tu.signal.fired w = true) (n : Nat) :
    pollTrace sd tu w n = List.replicate n (Poll.ready none) := by
  induction n generalizing tu with
  | zero => rfl
  | succ n ih =>
      rw [pollTrace, pollNext_of_fired sd tu w h, List.replicate_succ]
      exact congrArg (List.cons (Poll.ready none))
        (ih { tu with state := GuardState.Terminal } h)

/-- A trace of `n` polls records exactly `n` results. -/
theorem pollTrace_length (sd : StreamDef σ α) (tu : TakeUntil σ) (w : World)
    (n : Nat) : (pollTrace sd tu w n).length = n := by
  induction n generalizing tu with
  | zero => rfl
  | succ n ih =>
      rw [pollTrace]
      rcases hp : TakeUntil.pollNext sd tu w with ⟨r, tu1⟩
      simpa using ih tu1

/-- Polling through `n` copies of a world and then further worlds splits into
the fixed-world trace followed by the trace from the reached guard state. -/
theorem pollTraceW_replicate_append (sd : StreamDef σ α) (tu : TakeUntil σ)
    (w : World) (n : Nat) (ws : List World) :
    pollTraceW sd tu (List.replicate n w ++ ws) =
      pollTrace sd tu w n ++ pollTraceW sd (runPolls sd tu w n) ws := by
  induction n generalizing tu with
  | zero => rfl
  | succ n ih =>
      rw [List.replicate_succ, List.cons_append, pollTraceW, pollTrace, runPolls]
      rcases hp : TakeUntil.pollNext sd tu w with ⟨r, tu1⟩
      simpa using ih tu1

/-- Item counts add across concatenated traces. -/
theorem countItems_append (t1 t2 : List (Poll α)) :
    countItems (t1 ++ t2) = countItems t1 + countItems t2 := by
  simp [countItems, List.filter_append]

/-- A run of end-of-data answers carries no items. -/
theorem countItems_replicate_none (m : Nat) :
    countItems (List.replicate m (Poll.ready (none : Option α))) = 0 := by
  induction m with
  | zero => rfl
  | succ m ih => simp [List.replicate_succ, countItems, isItem]

/-- A trace all of whose polls yielded an item counts its full length. -/
theorem countItems_of_all_items (tr : List (Poll α))
    (h : ∀ r ∈ tr, isItem r = true) : countItems tr = tr.length := by
  induction tr with
  | nil => rfl
  | cons r tr ih =>
      have hr := h r (List.mem_cons_self r tr)
      have htr := ih fun x hx => h x (List.mem_cons_of_mem r hx)
      simp [countItems, List.filter_cons, hr] at htr ⊢
      exact htr

/-- A signal handle reports fired exactly when its cell holds `Fired`. -/
theorem fired_iff (tw : Tripwire) (w : World) :
    Tripwire.fired tw w = true ↔ w[tw.id]? = some SignalState.Fired := by
  cases hg : w[tw.id]? with
  | none => simp [Tripwire.fired, hg]
  | some st => cases st <;> simp [Tripwire.fired, hg]

/-- Closing a trigger fires the cell it owns. -/
theorem fired_close_self (t : Trigger) (w : World) (h : t.id < w.length) :
    Tripwire.fired ⟨t.id⟩ (t.close w) = true := by
  rw [fired_iff]
  exact List.getElem?_set_eq_of_lt _ h

/-- Closing a trigger leaves every other cell exactly as it was. -/
theorem fired_close_other (t : Trigger) (tw : Tripwire) (w : World)
    (h : t.id ≠ tw.id) :
    Tripwire.fired tw (t.close w) = Tripwire.fired tw w := by
  unfold Tripwire.fired Trigger.close
  rw [List.getElem?_set_ne h]

/-- A freshly minted signal cell starts out armed. -/
theorem fired_fresh (w : World) :
    Tripwire.fired ⟨w.length⟩ (w ++ [SignalState.Armed]) = false := by
  unfold Tripwire.fired
  rw [List.getElem?_concat_length]

/-- A fired cell stays fired across any later world operation. -/
theorem fired_applyOp (tw : Tripwire) (w : World) (op : Op)
    (h : Tripwire.fired tw w = true) :
    Tripwire.fired tw (applyOp w op) = true := by
  have hg := (fired_iff tw w).mp h
  have hlt : tw.id < w.length := by
    rcases List.getElem?_eq_some.mp hg with ⟨hl, _⟩
    exact hl
  cases op with
  | newSignal =>
      rw [fired_iff, applyOp, List.getElem?_append_left hlt]
      exact hg
  | fire i =>
      by_cases hi : i = tw.id
      · subst hi
        rw [fired_iff, applyOp]
        exact List.getElem?_set_eq_of_lt _ hlt
      · rw [fired_iff, applyOp, List.getElem?_set_ne hi]
        exact hg

/-- A fired cell stays fired across any later sequence of world operations. -/
theorem fired_applyOps (tw : Tripwire) (w : World) (ops : List Op)
    (h : Tripwire.fired tw w = true) :
    Tripwire.fired tw (applyOps w ops) = true := by
  induction ops generalizing w with
  | nil => exact h
  | cons op ops ih => exact ih _ (fired_applyOp tw w op h)

/-- `Valved.pollNext` is the inner combinator's poll, rewrapped. -/
theorem valved_pollNext_eq (sd : StreamDef σ α) (v : Valved σ) (w : World) :
    Valved.pollNext sd v w =
      ((TakeUntil.pollNext sd v.inner w).1, ⟨(TakeUntil.pollNext sd v.inner w).2⟩) := by
  rcases hp : TakeUntil.pollNext sd v.inner w with ⟨r, tu⟩
  simp [Valved.pollNext, hp]

/-- Armed, running, and the wrapped stream answers with something other than
end-of-data: the guard forwards the answer and stays running. -/
theorem pollNext_armed_item (sd : StreamDef σ α) (s : σ) (tw : Tripwire)
    (w : World) (harm : tw.fired w = false) (r : Poll α) (s1 : σ)
    (hp : sd.poll s = (r, s1)) (hr : r ≠ Poll.ready none) :
    TakeUntil.pollNext sd ⟨s, tw, GuardState.Running⟩ w =
      (r, ⟨s1, tw, GuardState.Running⟩) := by
  simp only [TakeUntil.pollNext, harm, Bool.false_eq_true, if_false, hp]

/-- Armed, running, and the wrapped stream reports its own end-of-data: the
guard forwards it and becomes terminal. -/
theorem pollNext_armed_none (sd : StreamDef σ α) (s : σ) (tw : Tripwire)
    (w : World) (harm : tw.fired w = false) (s1 : σ)
    (hp : sd.poll s = (Poll.ready none, s1)) :
    TakeUntil.pollNext sd ⟨s, tw, GuardState.Running⟩ w =
      (Poll.ready none, ⟨s1, tw, GuardState.Terminal⟩) := by
  simp only [TakeUntil.pollNext, harm, Bool.false_eq_true, if_false, hp]

/-- A fixed-world trace through replicated worlds is the fixed-world trace. -/
theorem pollTraceW_replicate (sd : StreamDef σ α) (tu : TakeUntil σ)
    (w : World) (n : Nat) :
    pollTraceW sd tu (List.replicate n w) = pollTrace sd tu w n := by
  have h := pollTraceW_replicate_append sd tu w n []
  simpa [pollTraceW] using h

/-- Iterated polling never changes which signal the guard watches. -/
theorem runPolls_signal_eq (sd : StreamDef σ α) (tu : TakeUntil σ) (w : World)
    (n : Nat) : (runPolls sd tu w n).signal = tu.signal := by
  induction n generalizing tu with
  | zero => rfl
  | succ n ih =>
      rw [runPolls]
      exact (ih _).trans (pollNext_signal_eq sd tu w)

/-- While the signal stays armed, the guarded trace is the raw trace, as long
as the raw stream has not yet reported its own end-of-data. -/
theorem pollTrace_armed_eq_raw (sd : StreamDef σ α) (s : σ) (tw : Tripwire)
    (w : World) (harm : tw.fired w = false) (n : Nat)
    (hno : Poll.ready none ∉ rawTrace sd s n) :
    pollTrace sd ⟨s, tw, GuardState.Running⟩ w n = rawTrace sd s n := by
  induction n generalizing s with
  | zero => rfl
  | succ n ih =>
      rcases hp : sd.poll s with ⟨r, s1⟩
      have hraw : rawTrace sd s (Nat.succ n) = r :: rawTrace sd s1 n := by
        rw [rawTrace, hp]
      rw [hraw] at hno
      have hr : r ≠ Poll.ready none := by
        intro he
        subst he
        exact hno (List.mem_cons_self _ _)
      have hno1 : Poll.ready none ∉ rawTrace sd s1 n :=
        fun hm => hno (List.mem_cons_of_mem _ hm)
      rw [pollTrace, pollNext_armed_item sd s tw w harm r s1 hp hr, hraw]
      exact congrArg (List.cons r) (ih s1 hno1)

/-- Claim C1: each poll of a `Valved` checks the shared signal's fired state
before the wrapped stream: once the signal has fired, the poll yields
end-of-data and leaves the wrapped stream's state untouched, so no further
item is ever drawn even if one is available; concretely, wrapping `[1,2,3]`,
polling once (yielding `1`), firing the trigger, and polling again yields
end-of-data, not `2`. -/
theorem C1_signal_checked_before_stream (sd : StreamDef σ α) (v : Valved σ)
    (w : World) (h : v.inner.signal.fired w = true) :
    ((Valved.pollNext sd v w).1 = Poll.ready none ∧
      (Valved.pollNext sd v w).2.inner.stream = v.inner.stream) ∧
    scenarioOnePollThenFire = (Poll.ready (some 1), Poll.ready none) := by
  rw [valved_pollNext_eq, pollNext_of_fired sd v.inner w h]
  exact ⟨⟨rfl, rfl⟩, by decide⟩

/-- Witness for C1 at a concrete fired world and wrapped stream. -/
theorem C1_signal_checked_before_stream_witness :
    ((Valved.pollNext (listStream Nat) ⟨⟨[2, 3], ⟨0⟩, GuardState.Running⟩⟩
        [SignalState.Fired]).1 = Poll.ready none ∧
      (Valved.pollNext (listStream Nat) ⟨⟨[2, 3], ⟨0⟩, GuardState.Running⟩⟩
        [SignalState.Fired]).2.inner.stream = [2, 3]) ∧
    scenarioOnePollThenFire = (Poll.ready (some 1), Poll.ready none) :=
  C1_signal_checked_before_stream (listStream Nat)
    ⟨⟨[2, 3], ⟨0⟩, GuardState.Running⟩⟩ [SignalState.Fired] (by decide)

/-- Claim C7: `Valve::wrap` does not consume or modify the valve: wrapping is
a pure allocation of the new wrapper around the given stream together with a
clone of the valve's signal handle, with no effect on any other state, and
unboundedly many wraps from one valve all share that same signal. -/
theorem C7_wrap_pure_nonconsuming (v : Valve) (s : σ) (ss : List σ) :
    v.wrap s = ⟨⟨s, v.tripwire, GuardState.Running⟩⟩ ∧
    ss.map (fun s0 => (v.wrap s0).inner.signal) = ss.map fun _ => v.tripwire :=
  ⟨rfl, rfl⟩

/-- Claim C8 as stated is false on the code: `#[derive(Clone)]` on
`Valved<S>` bounds the instance by `S: Clone`, so for a non-clonable wrapped
stream type the wrapper is not clonable. -/
theorem C8_counterexample : valvedIsClone false = false := by decide

/-- Claim C8 (amended): `Valved<S>` is clonable exactly when the wrapped
stream type `S` is; the embedded signal handle is always clonable and adds no
further requirement. -/
theorem C8_clone_iff_wrapped_clone (sClone : Bool) :
    valvedIsClone sClone = sClone ∧ tripwireIsClone = true := by
  cases sClone <;> exact ⟨rfl, rfl⟩

/-- Claim C10: `Valved::poll_next` is verbatim delegation: each poll performs
exactly one poll of the inner combinator, returns its result unchanged (with
the wrapped stream's item type), and the only state change is adopting the
inner combinator's successor state. -/
theorem C10_poll_next_verbatim_delegation (sd : StreamDef σ α) (v : Valved σ)
    (w : World) :
    Valved.pollNext sd v w =
      ((TakeUntil.pollNext sd v.inner w).1, ⟨(TakeUntil.pollNext sd v.inner w).2⟩) :=
  valved_pollNext_eq sd v w

/-- Claim C3: while the signal has not fired and the guard is running, the
`Valved` is transparent: a poll returns exactly what the unwrapped stream
returns (including the stream's own natural end-of-data), and over any number
of polls during which the raw stream has not yet reported end-of-data, the
guarded trace equals the raw trace — no item altered, reordered, dropped, or
duplicated. -/
theorem C3_pre_fire_transparency (sd : StreamDef σ α) (v : Valved σ)
    (w : World) (n : Nat) (hrun : v.inner.state = GuardState.Running)
    (harm : v.inner.signal.fired w = false) :
    (Valved.pollNext sd v w).1 = (sd.poll v.inner.stream).1 ∧
    (Poll.ready none ∉ rawTrace sd v.inner.stream n →
      pollTrace sd v.inner w n = rawTrace sd v.inner.stream n) := by
  obtain ⟨⟨s, tw, st⟩⟩ := v
  subst hrun
  constructor
  · rw [valved_pollNext_eq]
    exact (pollNext_of_armed sd s tw w harm).1
  · exact pollTrace_armed_eq_raw sd s tw w harm n

/-- Witness for C3 on the stream `[1,2,3]` in an armed world, three polls. -/
theorem C3_pre_fire_transparency_witness :
    (Valved.pollNext (listStream Nat) ⟨⟨[1, 2, 3], ⟨0⟩, GuardState.Running⟩⟩
        [SignalState.Armed]).1 = (listPoll [1, 2, 3]).1 ∧
    (Poll.ready none ∉ rawTrace (listStream Nat) [1, 2, 3] 3 →
      pollTrace (listStream Nat) ⟨[1, 2, 3], ⟨0⟩, GuardState.Running⟩
          [SignalState.Armed] 3 =
        rawTrace (listStream Nat) [1, 2, 3] 3) :=
  C3_pre_fire_transparency (listStream Nat)
    ⟨⟨[1, 2, 3], ⟨0⟩, GuardState.Running⟩⟩ [SignalState.Armed] 3 rfl (by decide)

/-- Claim C2: for every wrapped stream, firing before the first poll yields
zero items over any number of polls; and when the trigger fires after exactly
`n` polls each of which yielded an item, the `Valved` yields exactly those
`n` items and then end-of-data on every one of the `m` subsequent polls. -/
theorem C2_truncation_at_fire (sd : StreamDef σ α) (s : σ) (tw : Tripwire)
    (wA wF : World) (n m k : Nat) (hF : tw.fired wF = true) :
    countItems (pollTrace sd (takeUntil s tw) wF k) = 0 ∧
    ((∀ r ∈ pollTrace sd (takeUntil s tw) wA n, isItem r = true) →
      countItems (pollTraceW sd (takeUntil s tw)
          (List.replicate n wA ++ List.replicate m wF)) = n ∧
      (pollTraceW sd (takeUntil s tw)
          (List.replicate n wA ++ List.replicate m wF)).drop n =
        List.replicate m (Poll.ready none)) := by
  constructor
  · rw [pollTrace_of_fired sd (takeUntil s tw) wF hF k]
    exact countItems_replicate_none k
  · intro hall
    have hsplit :=
      pollTraceW_replicate_append sd (takeUntil s tw) wA n (List.replicate m wF)
    have hF2 : (runPolls sd (takeUntil s tw) wA n).signal.fired wF = true := by
      rw [runPolls_signal_eq]
      exact hF
    have hsecond : pollTraceW sd (runPolls sd (takeUntil s tw) wA n)
        (List.replicate m wF) = List.replicate m (Poll.ready none) := by
      rw [pollTraceW_replicate, pollTrace_of_fired _ _ _ hF2]
    have hlen : (pollTrace sd (takeUntil s tw) wA n).length = n :=
      pollTrace_length sd (takeUntil s tw) wA n
    have hcount1 : countItems (pollTrace sd (takeUntil s tw) wA n) = n := by
      rw [countItems_of_all_items _ hall, hlen]
    constructor
    · rw [hsplit, countItems_append, hcount1, hsecond, countItems_replicate_none]
      exact Nat.add_zero n
    · rw [hsplit, hsecond]
      nth_rewrite 1 [← hlen]
      exact List.drop_left _ _

/-- Witness for C2 on the stream `[1,2,3]`: fire at once (five polls, zero
items), or fire after two item polls (two items, then end-of-data twice). -/
theorem C2_truncation_at_fire_witness :
    countItems (pollTrace (listStream Nat) (takeUntil [1, 2, 3] ⟨0⟩)
        [SignalState.Fired] 5) = 0 ∧
    ((∀ r ∈ pollTrace (listStream Nat) (takeUntil [1, 2, 3] ⟨0⟩)
        [SignalState.Armed] 2, isItem r = true) →
      countItems (pollTraceW (listStream Nat) (takeUntil [1, 2, 3] ⟨0⟩)
          (List.replicate 2 [SignalState.Armed] ++
            List.replicate 2 [SignalState.Fired])) = 2 ∧
      (pollTraceW (listStream Nat) (takeUntil [1, 2, 3] ⟨0⟩)
          (List.replicate 2 [SignalState.Armed] ++
            List.replicate 2 [SignalState.Fired])).drop 2 =
        List.replicate 2 (Poll.ready none)) :=
  C2_truncation_at_fire (listStream Nat) [1, 2, 3] ⟨0⟩ [SignalState.Armed]
    [SignalState.Fired] 2 2 5 (by decide)

/-- Claim C4: the signal transitions `Armed → Fired` at most once and never
reverts: after `Trigger::close`, the handle — and every clone, since clones
reference the same cell — reports fired on every subsequent poll, across any
unbounded sequence of later operations on the shared state. -/
theorem C4_fired_never_reverts (w : World) (t : Trigger) (ops : List Op)
    (h : t.id < w.length) :
    Tripwire.fired ⟨t.id⟩ (applyOps (t.close w) ops) = true ∧
    Tripwire.fired (Tripwire.clone ⟨t.id⟩) (applyOps (t.close w) ops) = true := by
  have h1 := fired_applyOps ⟨t.id⟩ (t.close w) ops (fired_close_self t w h)
  exact ⟨h1, h1⟩

/-- Witness for C4: close the only cell, then mint a new lineage and fire it
too; the first cell still reports fired, as does a clone of its handle. -/
theorem C4_fired_never_reverts_witness :
    Tripwire.fired ⟨0⟩ (applyOps ((⟨0⟩ : Trigger).close [SignalState.Armed])
        [Op.newSignal, Op.fire 1]) = true ∧
    Tripwire.fired (Tripwire.clone ⟨0⟩)
      (applyOps ((⟨0⟩ : Trigger).close [SignalState.Armed])
        [Op.newSignal, Op.fire 1]) = true :=
  C4_fired_never_reverts [SignalState.Armed] ⟨0⟩ [Op.newSignal, Op.fire 1]
    (by decide)

/-- Claim C6: `Trigger::close` is callable with no live wrapper or valve: it
is a total operation that fires only its own signal cell, leaves every other
cell unchanged and the world the same size, and the unit test's
close-after-drop scenario completes with exactly that one cell fired. -/
theorem C6_close_after_drop_noop (w : World) (t : Trigger) (j : Nat)
    (hj : j ≠ t.id) :
    (t.close w).length = w.length ∧
    (t.close w)[j]? = w[j]? ∧
    scenarioCloseAfterDrop = [SignalState.Fired] := by
  refine ⟨by simp [Trigger.close], ?_, by decide⟩
  exact List.getElem?_set_ne (Ne.symm hj)

/-- Witness for C6 at a two-cell world: closing cell 0 preserves cell 1. -/
theorem C6_close_after_drop_noop_witness :
    ((⟨0⟩ : Trigger).close [SignalState.Armed, SignalState.Armed]).length =
      ([SignalState.Armed, SignalState.Armed] : World).length ∧
    ((⟨0⟩ : Trigger).close [SignalState.Armed, SignalState.Armed])[1]? =
      ([SignalState.Armed, SignalState.Armed] : World)[1]? ∧
    scenarioCloseAfterDrop = [SignalState.Fired] :=
  C6_close_after_drop_noop [SignalState.Armed, SignalState.Armed] ⟨0⟩ 1
    (by decide)

/-- Claim C5: for two `Valved` streams built from the same valve (one of them
through a clone of the valve), the single `Trigger::close` call makes both
yield end-of-data on their next poll — whether neither was ever polled before
the close, or one had already been polled while armed. -/
theorem C5_one_close_terminates_all (sd1 : StreamDef σ1 α1)
    (sd2 : StreamDef σ2 α2) (s1 : σ1) (s2 : σ2) (w : World) :
    match Valve.new w with
    | (t, v, w1) =>
        (Valved.pollNext sd1 (v.wrap s1) (t.close w1)).1 = Poll.ready none ∧
        (Valved.pollNext sd2 ((Valve.clone v).wrap s2) (t.close w1)).1 =
          Poll.ready none ∧
        (Valved.pollNext sd1 (Valved.pollNext sd1 (v.wrap s1) w1).2
          (t.close w1)).1 = Poll.ready none := by
  have hf : Tripwire.fired ⟨w.length⟩
      ((⟨w.length⟩ : Trigger).close (w ++ [SignalState.Armed])) = true :=
    fired_close_self ⟨w.length⟩ (w ++ [SignalState.Armed]) (by simp)
  refine ⟨?_, ?_, ?_⟩
  · rw [valved_pollNext_eq,
      pollNext_of_fired sd1 (Valve.wrap ⟨⟨w.length⟩⟩ s1).inner _ hf]
  · rw [valved_pollNext_eq,
      pollNext_of_fired sd2 ((Valve.clone ⟨⟨w.length⟩⟩).wrap s2).inner _ hf]
  · have hs : ((TakeUntil.pollNext sd1 (Valve.wrap ⟨⟨w.length⟩⟩ s1).inner
        (w ++ [SignalState.Armed])).2).signal.fired
        ((⟨w.length⟩ : Trigger).close (w ++ [SignalState.Armed])) = true := by
      rw [pollNext_signal_eq]
      exact hf
    rw [valved_pollNext_eq, valved_pollNext_eq,
      pollNext_of_fired sd1 _ _ hs]

/-- Claim C9: `Valved::new` is exactly `Valve::new` followed by `wrap`, and
each call mints a fresh, independent signal lineage: after closing the first
call's trigger, the second call's `Valved` still reports its signal unfired
and its next poll still delegates to its own wrapped stream. -/
theorem C9_new_composes_and_lineages_independent (s1 : σ1) (s2 : σ2)
    (sd2 : StreamDef σ2 α2) (w : World) :
    (Valved.new s1 w =
      match Valve.new w with
      | (t, v, w1) => (t, v.wrap s1, w1)) ∧
    (match Valved.new s1 w with
     | (t1, _, w1) =>
        match Valved.new s2 w1 with
        | (_, vd2, w2) =>
            Tripwire.fired vd2.inner.signal (t1.close w2) = false ∧
            (Valved.pollNext sd2 vd2 (t1.close w2)).1 = (sd2.poll s2).1) := by
  have hne : (⟨w.length⟩ : Trigger).id ≠
      (⟨(w ++ [SignalState.Armed]).length⟩ : Tripwire).id := by
    simp
  have harm : Tripwire.fired ⟨(w ++ [SignalState.Armed]).length⟩
      ((⟨w.length⟩ : Trigger).close
        ((w ++ [SignalState.Armed]) ++ [SignalState.Armed])) = false := by
    rw [fired_close_other _ _ _ hne]
    exact fired_fresh (w ++ [SignalState.Armed])
  refine ⟨rfl, ?_, ?_⟩
  · exact harm
  · show (Valved.pollNext sd2
        (Valve.wrap ⟨⟨(w ++ [SignalState.Armed]).length⟩⟩ s2)
        ((⟨w.length⟩ : Trigger).close
          ((w ++ [SignalState.Armed]) ++ [SignalState.Armed]))).1 =
      (sd2.poll s2).1
    rw [valved_pollNext_eq]
    exact (pollNext_of_armed sd2 s2 _ _ harm).1

end StreamCancel
